import Mathlib

/-!
Shallow embedding of `src/app.js` (cocktail/meal-pairing web app) and proofs
about its pairing-selection, drink-normalisation, meal-fetching and search
routing logic.

Conventions of the embedding:
* JS strings are `String`; a field that may be `null`/absent is `Option String`.
* `Math.random()` (a draw in `[0,1)`) is an explicit rational argument `r`;
  the comparator-driven shuffle consumes an explicit stream `s : Nat → Bool`
  of comparator signs (one bit per comparator call).
* JS array indexing `arr[i]` is `List.get?` (out of range = `undefined` = `none`).
* `axios` calls are an oracle `api : String → String → ApiResult` mapping the
  query-parameter name and value to either a thrown error or a JSON payload
  whose `meals` field is `null` or a list.  Each call is recorded in a log so
  that "no lookup is performed" is a provable statement.
-/

namespace CocktailApp

/-- An ingredient record produced by the normaliser:
`{ ingredient: <name>, measure: <measure or ''> }`. -/
structure Ingredient where
  ingredient : String
  measure : String
deriving DecidableEq, Repr

/-- A pairing rule `{ type: 'area' | 'category', value: <string> }`.
The `type` field is an arbitrary string, as in JS. -/
structure Rule where
  type : String
  value : String
deriving DecidableEq, Repr

/-- A pairing candidate group `{ keys: [...], options: [...] }`. -/
structure CandidateGroup where
  keys : List String
  options : List Rule
deriving DecidableEq, Repr

/-- The `FILLERS` array of `src/app.js` (lines 32–37). -/
def FILLERS : List String :=
  ["ice","salt","sugar","water","soda water","club soda","tonic water","ginger ale",
   "lemon juice","lime juice","orange juice","cranberry juice","pineapple juice",
   "simple syrup","syrup","grenadine","angostura bitters","bitters",
   "mint","basil","rosemary","egg white","cream","milk","half-and-half"]

/-- The `PAIRING_CANDIDATES` table of `src/app.js` (lines 40–102), in
declaration order. -/
def PAIRING_CANDIDATES : List CandidateGroup :=
  [ ⟨["tequila","mezcal"],
      [⟨"area","Mexican"⟩, ⟨"category","Pork"⟩, ⟨"category","Seafood"⟩]⟩,
    ⟨["rum"],
      [⟨"area","Jamaican"⟩, ⟨"area","Cuban"⟩, ⟨"category","Dessert"⟩]⟩,
    ⟨["gin"],
      [⟨"category","Seafood"⟩, ⟨"category","Vegetarian"⟩, ⟨"area","British"⟩]⟩,
    ⟨["vodka"],
      [⟨"category","Pasta"⟩, ⟨"area","Russian"⟩, ⟨"category","Chicken"⟩]⟩,
    ⟨["whiskey","whisky","bourbon","rye","scotch"],
      [⟨"category","Beef"⟩, ⟨"category","Pork"⟩, ⟨"area","American"⟩]⟩,
    ⟨["brandy","cognac"],
      [⟨"category","Lamb"⟩, ⟨"category","Beef"⟩, ⟨"area","French"⟩]⟩,
    ⟨["campari","aperol","vermouth"],
      [⟨"category","Seafood"⟩, ⟨"category","Pasta"⟩, ⟨"area","Italian"⟩]⟩,
    ⟨["triple sec","cointreau","grand marnier","curaçao","curacao","amaretto"],
      [⟨"category","Dessert"⟩, ⟨"category","Cake"⟩, ⟨"category","Pancake"⟩]⟩,
    ⟨["sotol"],
      [⟨"area","Mexican"⟩, ⟨"category","Beef"⟩]⟩,
    ⟨["cachaça","cacacha","aguardiente"],
      [⟨"area","Brazilian"⟩, ⟨"category","Beef"⟩]⟩,
    ⟨["ouzo","pastis","arak","raki","sambuca"],
      [⟨"area","Greek"⟩, ⟨"category","Seafood"⟩]⟩,
    ⟨["sake","soju","shochu"],
      [⟨"area","Japanese"⟩, ⟨"category","Seafood"⟩]⟩ ]

/-- The `DEFAULT_PAIRINGS` list of `src/app.js` (lines 105–112). -/
def DEFAULT_PAIRINGS : List Rule :=
  [ ⟨"area","Italian"⟩, ⟨"area","Thai"⟩, ⟨"area","Indian"⟩,
    ⟨"category","Seafood"⟩, ⟨"category","Vegetarian"⟩, ⟨"category","Chicken"⟩ ]

/-- `pickOne(arr)` = `arr[Math.floor(Math.random() * arr.length)]`
(`src/app.js` lines 115–117).  The random draw `r` is explicit; an
out-of-range index yields `none` (JS `undefined`). -/
def pickOne (r : ℚ) (arr : List α) : Option α :=
  arr.get? (Int.toNat ⌊r * arr.length⌋)

/-- JS `String.prototype.toLowerCase()` on a string, modelled character-wise
(ASCII case mapping, which covers every character the tables use). -/
def jsToLower (s : String) : String :=
  String.mk (s.data.map Char.toLower)

/-- JS `String.prototype.trim()`: strip whitespace from both ends. -/
def jsTrim (s : String) : String :=
  String.mk
    (((s.data.dropWhile Char.isWhitespace).reverse.dropWhile Char.isWhitespace).reverse)

/-- `extractPairingKeys` (`src/app.js` lines 120–124): lowercase and trim each
ingredient name, drop empties and fillers.  (`i.ingredient || ''` is the
identity on strings since `''` is itself falsy.) -/
def extractPairingKeys (ingredients : List Ingredient) : List String :=
  (ingredients.map (fun i => jsTrim (jsToLower i.ingredient))).filter
    (fun x => x ≠ "" && !(FILLERS.contains x))

/-- The match test of the `for` loop in `pickPairingRule`:
`group.keys.some(k => keys.includes(k))`. -/
def groupMatches (keys : List String) (group : CandidateGroup) : Bool :=
  group.keys.any (fun k => keys.contains k)

/-- `pickPairingRule` (`src/app.js` lines 127–136): scan `PAIRING_CANDIDATES`
in declaration order, return a random option of the first matching group,
else a random default.  `List.find?` models the early-returning `for` loop. -/
def pickPairingRule (r : ℚ) (ingredients : List Ingredient) : Option Rule :=
  let keys := extractPairingKeys ingredients
  match PAIRING_CANDIDATES.find? (groupMatches keys) with
  | some group => pickOne r group.options
  | none => pickOne r DEFAULT_PAIRINGS

example : extractPairingKeys [⟨"Tequila",""⟩, ⟨"Triple sec",""⟩, ⟨"Lime juice",""⟩]
    = ["tequila", "triple sec"] := by decide

/-! ### Drink normaliser (`normalizeDrinkDetails`, `src/app.js` lines 19–27) -/

/-- A raw drink record from the cocktail API: a JS object whose fields are
strings or `null` (absent fields and `null` fields behave alike here). -/
abbrev RawDrink := List (String × Option String)

/-- The field name `strIngredient<i>`. -/
def ingKey (i : Nat) : String := "strIngredient" ++ toString i

/-- The field name `strMeasure<i>`. -/
def meaKey (i : Nat) : String := "strMeasure" ++ toString i

/-- JS property access `drink[key]`: `none` for an absent or `null` field. -/
def getField (drink : RawDrink) (k : String) : Option String :=
  (drink.lookup k).bind id

/-- The loop body of `normalizeDrinkDetails`: for `i = 1..15`, if
`drink[strIngredient i]` is truthy push
`{ ingredient: ing, measure: mea || '' }`. -/
def collectIngredients (drink : RawDrink) : List Ingredient :=
  (List.range' 1 15).filterMap fun i =>
    match getField drink (ingKey i) with
    | some ing =>
      if ing = "" then none
      else some ⟨ing, (getField drink (meaKey i)).getD ""⟩
    | none => none

/-- A field value of the normalised record: either a primitive field copied
from the raw record, or the added `ingredients` list. -/
inductive FieldVal where
  | prim (v : Option String)
  | ings (l : List Ingredient)
deriving DecidableEq, Repr

/-- JS object-literal update semantics for `{ ...drink, ingredients }`: if the
key already exists it is overwritten in place, otherwise appended. -/
def objSet (obj : List (String × FieldVal)) (k : String) (v : FieldVal) :
    List (String × FieldVal) :=
  if obj.any (fun p => p.1 = k) then
    obj.map (fun p => if p.1 = k then (k, v) else p)
  else obj ++ [(k, v)]

/-- `normalizeDrinkDetails` (`src/app.js` lines 19–27): return
`{ ...drink, ingredients }`. -/
def normalizeDrinkDetails (drink : RawDrink) : List (String × FieldVal) :=
  objSet (drink.map fun p => (p.1, FieldVal.prim p.2)) "ingredients"
    (.ings (collectIngredients drink))

/-! ### Meal fetcher (`fetchMealsByRule`, `src/app.js` lines 139–178)

An `axios.get` on the meal API either throws or yields a payload whose
`meals` field is `null` or a list (meals are opaque, kept as strings).  The
API is an oracle from the query parameter (`"a"` or `"c"`) and its value.
`fetchMealsByRule` returns the result list together with the log of calls
made, so that "performs no lookup" is provable. -/

/-- Outcome of one `axios.get` against the meal API. -/
inductive ApiResult where
  | throw
  | ok (meals : Option (List String))
deriving DecidableEq, Repr

/-- The meal API as an oracle: query-parameter name and value to outcome. -/
abbrev MealApi := String → String → ApiResult

/-- The body shared by every lookup site:
`const meals = (data.meals || []); if (meals.length) return meals.slice(0, 6);`
with a thrown error caught (= no result). -/
def mealSlice (res : ApiResult) : Option (List String) :=
  match res with
  | .throw => none
  | .ok meals =>
    let m := meals.getD []
    if m.length = 0 then none else some (m.take 6)

/-- The primary lookup of `fetchMealsByRule` (lines 141–153): query by `a` for
an `'area'` rule, by `c` for a `'category'` rule, otherwise do nothing.
Returns the outcome and the calls issued. -/
def primaryLookup (api : MealApi) (rule : Rule) :
    Option (List String) × List (String × String) :=
  if rule.type = "area" then (mealSlice (api "a" rule.value), [("a", rule.value)])
  else if rule.type = "category" then (mealSlice (api "c" rule.value), [("c", rule.value)])
  else (none, [])

/-- One iteration of the fallback loop (lines 160–176): query by `a` for an
`'area'` rule and by `c` for anything else. -/
def fallbackOnce (api : MealApi) (fb : Rule) :
    Option (List String) × (String × String) :=
  if fb.type = "area" then (mealSlice (api "a" fb.value), ("a", fb.value))
  else (mealSlice (api "c" fb.value), ("c", fb.value))

/-- The fallback loop: try each rule in order, return the first success. -/
def fallbackCascade (api : MealApi) : List Rule → List String × List (String × String)
  | [] => ([], [])
  | fb :: rest =>
    match (fallbackOnce api fb).1 with
    | some r => (r, [(fallbackOnce api fb).2])
    | none =>
      ((fallbackCascade api rest).1,
       (fallbackOnce api fb).2 :: (fallbackCascade api rest).2)

/-- Advance a comparator-sign stream by one draw. -/
def shiftS (s : Nat → Bool) : Nat → Bool := fun n => s (n + 1)

/-- Prepend a draw to a comparator-sign stream. -/
def consS (b : Bool) (s : Nat → Bool) : Nat → Bool
  | 0 => b
  | n + 1 => s n

/-- One insertion step of the comparator-driven sort: each comparison
consumes one sign from the stream (`true` = the comparator returned a
negative number, placing the inserted element first). -/
def randInsert (x : α) : (Nat → Bool) → List α → List α × (Nat → Bool)
  | s, [] => ([x], s)
  | s, y :: ys =>
    if s 0 then (x :: y :: ys, shiftS s)
    else
      (y :: (randInsert x (shiftS s) ys).1, (randInsert x (shiftS s) ys).2)

/-- The shuffle `[...DEFAULT_PAIRINGS].sort(() => Math.random() - 0.5)`
(line 159), modelled as an insertion sort driven by the stream of random
comparator signs (the engine's sort under an inconsistent comparator is some
comparison-driven rearrangement; insertion sort is the canonical model and
the kind of randomized comparator shuffle the code intends). -/
def randShuffle : (Nat → Bool) → List α → List α × (Nat → Bool)
  | s, [] => ([], s)
  | s, x :: xs => randInsert x (randShuffle s xs).2 (randShuffle s xs).1

/-- `fetchMealsByRule` (`src/app.js` lines 139–178): primary lookup, then the
shuffled fallback cascade, else `[]`.  Returns the result and the call log. -/
def fetchMealsByRule (api : MealApi) (s : Nat → Bool) (rule : Rule) :
    List String × List (String × String) :=
  match (primaryLookup api rule).1 with
  | some r => (r, (primaryLookup api rule).2)
  | none =>
    ((fallbackCascade api (randShuffle s DEFAULT_PAIRINGS).1).1,
     (primaryLookup api rule).2 ++
       (fallbackCascade api (randShuffle s DEFAULT_PAIRINGS).1).2)

/-! ### The `POST /search` route (`src/app.js` lines 190–216) -/

/-- Outcome of one `axios.get` against the cocktail API (drinks opaque). -/
inductive DrinksResult where
  | throw
  | ok (drinks : Option (List String))
deriving DecidableEq, Repr

/-- The response the `/search` handler sends. -/
inductive SearchResponse where
  | redirect (path : String)
  | results (heading : String) (drinks : List String)
  | errorPage (message : String)
deriving DecidableEq, Repr

/-- JS truthiness of `x && x.trim()` for `x` a form field (absent or a
string). -/
def truthyTrim : Option String → Bool
  | none => false
  | some s => s ≠ "" && jsTrim s ≠ ""

/-- The `POST /search` handler (lines 190–216), with its call log: search by
name when the name field is truthy, else by ingredient, else redirect home. -/
def searchPost (api : String → String → DrinksResult)
    (name ingredient : Option String) :
    SearchResponse × List (String × String) :=
  if truthyTrim name then
    let q := jsTrim (name.getD "")
    match api "s" q with
    | .throw => (.errorPage "Search failed. Please try different terms.", [("s", q)])
    | .ok drinks =>
      (.results ("Results for name: \"" ++ q ++ "\"") (drinks.getD []), [("s", q)])
  else if truthyTrim ingredient then
    let q := jsTrim (ingredient.getD "")
    match api "i" q with
    | .throw => (.errorPage "Search failed. Please try different terms.", [("i", q)])
    | .ok drinks =>
      (.results ("Results with ingredient: \"" ++ q ++ "\"") (drinks.getD []), [("i", q)])
  else
    (.redirect "/", [])

/-- Evaluation lemma: a zero random draw picks the head of the list. -/
theorem pickOne_zero (arr : List α) : pickOne 0 arr = arr.get? 0 := by
  simp [pickOne]

example : pickPairingRule 0 [⟨"Tequila",""⟩, ⟨"Triple sec",""⟩, ⟨"Lime juice",""⟩]
    = some ⟨"area","Mexican"⟩ := by
  have h : PAIRING_CANDIDATES.find?
      (groupMatches (extractPairingKeys
        [⟨"Tequila",""⟩, ⟨"Triple sec",""⟩, ⟨"Lime juice",""⟩])) =
      some ⟨["tequila","mezcal"],
        [⟨"area","Mexican"⟩, ⟨"category","Pork"⟩, ⟨"category","Seafood"⟩]⟩ := by
    decide
  rw [pickPairingRule, h]
  show pickOne 0 ([⟨"area","Mexican"⟩, ⟨"category","Pork"⟩, ⟨"category","Seafood"⟩] : List Rule) = _
  rw [pickOne_zero]; rfl

example : pickPairingRule (1/2) [⟨"Ice",""⟩, ⟨"Soda water",""⟩]
    = some ⟨"category","Seafood"⟩ := by
  have h : PAIRING_CANDIDATES.find?
      (groupMatches (extractPairingKeys [⟨"Ice",""⟩, ⟨"Soda water",""⟩])) = none := by
    decide
  rw [pickPairingRule, h]
  show pickOne (1/2) DEFAULT_PAIRINGS = _
  rw [pickOne]
  norm_num [DEFAULT_PAIRINGS]
  rfl

/-- With a random draw in `[0,1)` and a non-empty list, `pickOne` returns an
element of the list (the floored index is in bounds). -/
theorem pickOne_mem (r : ℚ) (arr : List α) (h0 : 0 ≤ r) (h1 : r < 1)
    (hne : arr ≠ []) : ∃ a, pickOne r arr = some a ∧ a ∈ arr := by
  have hlen : 0 < arr.length := List.length_pos.mpr hne
  have hcast : (0 : ℚ) < (arr.length : ℚ) := by exact_mod_cast hlen
  have hlt : r * (arr.length : ℚ) < (arr.length : ℚ) := by
    calc r * (arr.length : ℚ) < 1 * (arr.length : ℚ) :=
          mul_lt_mul_of_pos_right h1 hcast
      _ = (arr.length : ℚ) := one_mul _
  have hfl : ⌊r * (arr.length : ℚ)⌋ < (arr.length : ℤ) := by
    apply Int.floor_lt.mpr
    exact_mod_cast hlt
  have hidx : Int.toNat ⌊r * (arr.length : ℚ)⌋ < arr.length := by omega
  refine ⟨arr.get ⟨_, hidx⟩, ?_, List.get_mem _ _ _⟩
  simp [pickOne, List.get?_eq_get hidx]

/-- Every candidate group's options list is non-empty. -/
theorem options_ne_nil : ∀ g ∈ PAIRING_CANDIDATES, g.options ≠ [] := by decide

/-- The default pairing pool is non-empty. -/
theorem defaults_ne_nil : DEFAULT_PAIRINGS ≠ [] := by decide

/-- Keyword extraction depends only on the lowercased ingredient names:
matching is case-insensitive in the names. -/
theorem extractPairingKeys_congr (l₁ l₂ : List Ingredient)
    (h : List.Forall₂ (fun a b => jsToLower a.ingredient = jsToLower b.ingredient) l₁ l₂) :
    extractPairingKeys l₁ = extractPairingKeys l₂ := by
  unfold extractPairingKeys
  induction h with
  | nil => rfl
  | cons hab htl ih => simp only [List.map_cons, List.filter_cons, hab, ih]

/-- C1: for every ingredient list whose filtered keyword set (lowercased,
trimmed, fillers removed) contains a key of some candidate group, and for
every random draw in `[0,1)`, `pickPairingRule` returns a rule selected from
the options of the first group (in declaration order of
`PAIRING_CANDIDATES`) with a matching key: the selection is
`pickOne r group.options`, so the `DEFAULT_PAIRINGS` branch is never taken,
no group before the matched one matches, and the returned rule is a member
of the matched group's options. -/
theorem pickPairingRule_matched_group
    (ingredients : List Ingredient) (r : ℚ) (h0 : 0 ≤ r) (h1 : r < 1)
    (hmatch : ∃ g ∈ PAIRING_CANDIDATES, ∃ k ∈ g.keys,
        k ∈ extractPairingKeys ingredients) :
    ∃ g pre post,
      PAIRING_CANDIDATES = pre ++ g :: post ∧
      (∀ g' ∈ pre, ¬ groupMatches (extractPairingKeys ingredients) g') ∧
      groupMatches (extractPairingKeys ingredients) g ∧
      pickPairingRule r ingredients = pickOne r g.options ∧
      ∃ rule, pickPairingRule r ingredients = some rule ∧ rule ∈ g.options := by
  obtain ⟨g, hg, k, hk, hkeys⟩ := hmatch
  have hsome : (PAIRING_CANDIDATES.find?
      (groupMatches (extractPairingKeys ingredients))).isSome := by
    apply List.find?_isSome.mpr
    refine ⟨g, hg, ?_⟩
    simp only [groupMatches, List.any_eq_true]
    exact ⟨k, hk, by simpa using hkeys⟩
  obtain ⟨g₀, hfind⟩ := Option.isSome_iff_exists.mp hsome
  have hdec := List.find?_eq_some.mp hfind
  obtain ⟨hg₀, pre, post, hsplit, hpre⟩ := hdec
  have hmem : g₀ ∈ PAIRING_CANDIDATES := List.mem_of_find?_eq_some hfind
  have hne : g₀.options ≠ [] := options_ne_nil g₀ hmem
  obtain ⟨rule, hrule, hrmem⟩ := pickOne_mem r g₀.options h0 h1 hne
  have heq : pickPairingRule r ingredients = pickOne r g₀.options := by
    rw [pickPairingRule, hfind]
  exact ⟨g₀, pre, post, hsplit,
    fun g' hg' => by simpa using hpre g' hg', by simpa using hg₀,
    heq, rule, heq ▸ hrule, hrmem⟩

/-- C2: when every ingredient name is a filler or matches no candidate
group's keys, `pickPairingRule` selects from `DEFAULT_PAIRINGS`, and the
returned rule is a member of `DEFAULT_PAIRINGS`, for every random draw in
`[0,1)`. -/
theorem pickPairingRule_default
    (ingredients : List Ingredient) (r : ℚ) (h0 : 0 ≤ r) (h1 : r < 1)
    (hnone : ∀ g ∈ PAIRING_CANDIDATES, ∀ k ∈ g.keys,
        k ∉ extractPairingKeys ingredients) :
    pickPairingRule r ingredients = pickOne r DEFAULT_PAIRINGS ∧
    ∃ rule, pickPairingRule r ingredients = some rule ∧
      rule ∈ DEFAULT_PAIRINGS := by
  have hfind : PAIRING_CANDIDATES.find?
      (groupMatches (extractPairingKeys ingredients)) = none := by
    apply List.find?_eq_none.mpr
    intro g hg hcontra
    rw [groupMatches, List.any_eq_true] at hcontra
    obtain ⟨k, hk, hkeys⟩ := hcontra
    exact hnone g hg k hk (by simpa using hkeys)
  have heq : pickPairingRule r ingredients = pickOne r DEFAULT_PAIRINGS := by
    rw [pickPairingRule, hfind]
  obtain ⟨rule, hrule, hrmem⟩ := pickOne_mem r DEFAULT_PAIRINGS h0 h1 defaults_ne_nil
  exact ⟨heq, rule, heq ▸ hrule, hrmem⟩

/-- C3: `pickPairingRule` is total — for every ingredient list and random
draw in `[0,1)` it returns exactly one rule; every candidate group's options
list and the default pool are non-empty, and the floored random index of
`pickOne` is always in bounds on a non-empty list; selection is
case-insensitive in the ingredient names, and the static keys are already
lowercase (they are compared by exact string equality). -/
theorem pickPairingRule_total :
    (∀ (ingredients : List Ingredient) (r : ℚ), 0 ≤ r → r < 1 →
        ∃! rule, pickPairingRule r ingredients = some rule) ∧
    (∀ g ∈ PAIRING_CANDIDATES, g.options ≠ []) ∧
    DEFAULT_PAIRINGS ≠ [] ∧
    (∀ (arr : List Rule) (r : ℚ), 0 ≤ r → r < 1 → arr ≠ [] →
        Int.toNat ⌊r * (arr.length : ℚ)⌋ < arr.length) ∧
    (∀ l₁ l₂ : List Ingredient,
        List.Forall₂ (fun a b => jsToLower a.ingredient = jsToLower b.ingredient) l₁ l₂ →
        ∀ r : ℚ, pickPairingRule r l₁ = pickPairingRule r l₂) ∧
    (∀ g ∈ PAIRING_CANDIDATES, ∀ k ∈ g.keys, jsToLower k = k) := by
  refine ⟨?_, options_ne_nil, defaults_ne_nil, ?_, ?_, by decide⟩
  · intro ingredients r h0 h1
    cases hf : PAIRING_CANDIDATES.find?
        (groupMatches (extractPairingKeys ingredients)) with
    | some g =>
      have hne : g.options ≠ [] :=
        options_ne_nil g (List.mem_of_find?_eq_some hf)
      obtain ⟨rule, hrule, -⟩ := pickOne_mem r g.options h0 h1 hne
      have heq : pickPairingRule r ingredients = pickOne r g.options := by
        rw [pickPairingRule, hf]
      refine ⟨rule, by rw [heq]; exact hrule, ?_⟩
      intro y hy
      rw [heq, hrule] at hy
      exact (Option.some_inj.mp hy).symm
    | none =>
      obtain ⟨rule, hrule, -⟩ :=
        pickOne_mem r DEFAULT_PAIRINGS h0 h1 defaults_ne_nil
      have heq : pickPairingRule r ingredients = pickOne r DEFAULT_PAIRINGS := by
        rw [pickPairingRule, hf]
      refine ⟨rule, by rw [heq]; exact hrule, ?_⟩
      intro y hy
      rw [heq, hrule] at hy
      exact (Option.some_inj.mp hy).symm
  · intro arr r h0 h1 hne
    have hlen : 0 < arr.length := List.length_pos.mpr hne
    have hcast : (0 : ℚ) < (arr.length : ℚ) := by exact_mod_cast hlen
    have hlt : r * (arr.length : ℚ) < (arr.length : ℚ) := by
      calc r * (arr.length : ℚ) < 1 * (arr.length : ℚ) :=
            mul_lt_mul_of_pos_right h1 hcast
        _ = (arr.length : ℚ) := one_mul _
    have hfl : ⌊r * (arr.length : ℚ)⌋ < (arr.length : ℤ) := by
      apply Int.floor_lt.mpr
      exact_mod_cast hlt
    omega
  · intro l₁ l₂ h r
    rw [pickPairingRule, pickPairingRule, extractPairingKeys_congr l₁ l₂ h]

/-- A numbered slot is populated when its ingredient name is a non-empty
string (JS truthiness of `drink[strIngredient i]`). -/
def slotPopulated (drink : RawDrink) (i : Nat) : Bool :=
  match getField drink (ingKey i) with
  | some ing => ing ≠ ""
  | none => false

/-- The ingredient record a populated slot contributes. -/
def slotEntry (drink : RawDrink) (i : Nat) : Ingredient :=
  ⟨(getField drink (ingKey i)).getD "", (getField drink (meaKey i)).getD ""⟩

/-- The loop of `normalizeDrinkDetails` keeps exactly the populated slots,
in ascending slot order, over any slot list. -/
theorem collectIngredients_filter (drink : RawDrink) (l : List Nat) :
    (l.filterMap fun i =>
      match getField drink (ingKey i) with
      | some ing =>
        if ing = "" then none
        else some (⟨ing, (getField drink (meaKey i)).getD ""⟩ : Ingredient)
      | none => none) =
    (l.filter (slotPopulated drink)).map (slotEntry drink) := by
  induction l with
  | nil => rfl
  | cons a t ih =>
    rw [List.filterMap_cons, List.filter_cons]
    cases hf : getField drink (ingKey a) with
    | none => simp [slotPopulated, hf, ih]
    | some ing =>
      by_cases he : ing = ""
      · simp [slotPopulated, hf, he, ih]
      · simp [slotPopulated, slotEntry, hf, he, ih]

/-- C4: for every raw drink record, the normalised ingredient list has
exactly one entry per populated slot `1–15` (name present and non-empty),
in ascending slot order; slots with empty or absent names contribute
nothing regardless of their measure (the filter reads only the name); an
included entry's measure defaults to `''` when absent; and with exactly 3
populated slots the output has exactly 3 entries. -/
theorem collectIngredients_spec (drink : RawDrink) :
    collectIngredients drink =
      ((List.range' 1 15).filter (slotPopulated drink)).map (slotEntry drink) ∧
    (collectIngredients drink).length =
      ((List.range' 1 15).filter (slotPopulated drink)).length ∧
    (((List.range' 1 15).filter (slotPopulated drink)).length = 3 →
        (collectIngredients drink).length = 3) ∧
    (∀ e ∈ collectIngredients drink, e.ingredient ≠ "") := by
  have key := collectIngredients_filter drink (List.range' 1 15)
  have hmain : collectIngredients drink =
      ((List.range' 1 15).filter (slotPopulated drink)).map (slotEntry drink) := key
  have hlen : (collectIngredients drink).length =
      ((List.range' 1 15).filter (slotPopulated drink)).length := by
    rw [hmain, List.length_map]
  refine ⟨hmain, hlen, fun h3 => by rw [hlen, h3], ?_⟩
  intro e he
  rw [hmain] at he
  obtain ⟨i, hi, rfl⟩ := List.mem_map.mp he
  have hpop : slotPopulated drink i := (List.mem_filter.mp hi).2
  rw [slotPopulated] at hpop
  cases hf : getField drink (ingKey i) with
  | none => rw [hf] at hpop; exact absurd hpop (by simp)
  | some ing =>
    rw [hf] at hpop
    simp only [slotEntry, hf, Option.getD_some]
    simpa using hpop

/-- Looking up a key in the primitive-wrapped copy of the raw record. -/
theorem lookup_map_prim (drink : RawDrink) (k : String) :
    (drink.map fun p => (p.1, FieldVal.prim p.2)).lookup k =
      (drink.lookup k).map FieldVal.prim := by
  induction drink with
  | nil => rfl
  | cons a t ih =>
    by_cases h : k = a.1
    · simp [List.lookup, h]
    · simp only [List.map_cons, List.lookup]
      rw [show (k == a.1) = false from beq_eq_false_iff_ne.mpr h]
      exact ih

/-- Replacing the entries at one key leaves every other key's lookup
unchanged. -/
theorem lookup_replaceAll_ne (k k' : String) (v : FieldVal)
    (t : List (String × FieldVal)) (h : k ≠ k') :
    List.lookup k (t.map fun p => if p.1 = k' then (k', v) else p) =
      List.lookup k t := by
  induction t with
  | nil => rfl
  | cons a t ih =>
    simp only [List.map_cons]
    by_cases ha : a.1 = k'
    · rw [if_pos ha]
      have hk1 : (k == k') = false := beq_eq_false_iff_ne.mpr h
      have hk2 : (k == a.1) = false := by rw [ha]; exact hk1
      simp [List.lookup, hk1, hk2, ih]
    · rw [if_neg ha]
      cases hka : k == a.1 with
      | true => simp [List.lookup, hka]
      | false => simp [List.lookup, hka, ih]

/-- Appending an entry at a fresh key leaves every other key's lookup
unchanged. -/
theorem lookup_append_ne (k k' : String) (v : FieldVal)
    (t : List (String × FieldVal)) (h : k ≠ k') :
    List.lookup k (t ++ [(k', v)]) = List.lookup k t := by
  induction t with
  | nil =>
    have hk1 : (k == k') = false := beq_eq_false_iff_ne.mpr h
    simp [List.lookup, hk1]
  | cons a t ih =>
    cases hka : k == a.1 with
    | true => simp [List.lookup, hka]
    | false => simp [List.lookup, hka, ih]

/-- Replacing the entries at a key that occurs makes its lookup the new
value. -/
theorem lookup_replaceAll_self (k : String) (v : FieldVal)
    (t : List (String × FieldVal)) (hany : t.any (fun p => p.1 = k) = true) :
    List.lookup k (t.map fun p => if p.1 = k then (k, v) else p) = some v := by
  induction t with
  | nil => simp at hany
  | cons a t ih =>
    simp only [List.map_cons]
    by_cases ha : a.1 = k
    · rw [if_pos ha]
      simp [List.lookup]
    · rw [if_neg ha]
      have hka : (k == a.1) = false :=
        beq_eq_false_iff_ne.mpr (fun hk => ha hk.symm)
      have hta : t.any (fun p => p.1 = k) = true := by
        rcases List.any_eq_true.mp hany with ⟨p, hp, hpk⟩
        rcases List.mem_cons.mp hp with rfl | hpt
        · exact absurd (by simpa using hpk) ha
        · exact List.any_eq_true.mpr ⟨p, hpt, hpk⟩
      simp [List.lookup, hka, ih hta]

/-- Appending an entry at a key that does not occur makes its lookup the new
value. -/
theorem lookup_append_self (k : String) (v : FieldVal)
    (t : List (String × FieldVal))
    (hany : t.any (fun p => p.1 = k) = false) :
    List.lookup k (t ++ [(k, v)]) = some v := by
  induction t with
  | nil => simp [List.lookup]
  | cons a t ih =>
    have ha : ¬ a.1 = k := by
      intro hk
      rw [List.any_cons] at hany
      simp [hk] at hany
    have hka : (k == a.1) = false :=
      beq_eq_false_iff_ne.mpr (fun hk => ha hk.symm)
    have hta : t.any (fun p => p.1 = k) = false := by
      rw [List.any_cons] at hany
      exact (Bool.or_eq_false_iff.mp hany).2
    simp [List.lookup, hka, ih hta]

/-- Updating one key leaves every other key's lookup unchanged. -/
theorem lookup_objSet_ne (obj : List (String × FieldVal)) (k k' : String)
    (v : FieldVal) (h : k ≠ k') :
    (objSet obj k' v).lookup k = obj.lookup k := by
  rw [objSet]
  by_cases hany : obj.any (fun p => p.1 = k')
  · rw [if_pos hany]
    exact lookup_replaceAll_ne k k' v obj h
  · rw [if_neg hany]
    exact lookup_append_ne k k' v obj h

/-- Updating a key makes its lookup return the new value. -/
theorem lookup_objSet_self (obj : List (String × FieldVal)) (k : String)
    (v : FieldVal) : (objSet obj k v).lookup k = some v := by
  rw [objSet]
  by_cases hany : obj.any (fun p => p.1 = k)
  · rw [if_pos hany]
    exact lookup_replaceAll_self k v obj hany
  · rw [if_neg hany]
    exact lookup_append_self k v obj (Bool.eq_false_iff.mpr hany)

/-- C5: `normalizeDrinkDetails` returns `{ ...drink, ingredients }`: every
field other than `ingredients` is looked up unchanged (wrapped as a
primitive field value), and the `ingredients` field holds exactly the
collected ingredient list.  The transformation is a pure function of the
input, so the input record itself is untouched. -/
theorem normalizeDrinkDetails_frame (drink : RawDrink) (k : String)
    (hk : k ≠ "ingredients") :
    (normalizeDrinkDetails drink).lookup k =
      (drink.lookup k).map FieldVal.prim ∧
    (normalizeDrinkDetails drink).lookup "ingredients" =
      some (.ings (collectIngredients drink)) := by
  constructor
  · rw [normalizeDrinkDetails, lookup_objSet_ne _ _ _ _ hk, lookup_map_prim]
  · rw [normalizeDrinkDetails, lookup_objSet_self]

/-- Dropping the first comparator sign after prepending it is the identity. -/
theorem shiftS_consS (b : Bool) (s : Nat → Bool) : shiftS (consS b s) = s :=
  funext fun n => rfl

/-- `randInsert` inserts the new element somewhere: the result is a
permutation of the element consed on the input. -/
theorem randInsert_fst_perm (x : α) :
    ∀ (s : Nat → Bool) (l : List α), List.Perm (randInsert x s l).1 (x :: l) := by
  intro s l
  induction l generalizing s with
  | nil => exact List.Perm.refl _
  | cons y ys ih =>
    rw [randInsert]
    by_cases h : s 0
    · rw [if_pos h]
    · rw [if_neg h]
      exact List.Perm.trans (List.Perm.cons y (ih (shiftS s)))
        (List.Perm.swap x y ys)

/-- The comparator-driven shuffle always returns a permutation of its
input, for every stream of comparator signs. -/
theorem randShuffle_fst_perm :
    ∀ (s : Nat → Bool) (l : List α), List.Perm (randShuffle s l).1 l := by
  intro s l
  induction l generalizing s with
  | nil => exact List.Perm.refl _
  | cons x xs ih =>
    rw [randShuffle]
    exact List.Perm.trans
      (randInsert_fst_perm x (randShuffle s xs).2 (randShuffle s xs).1)
      (List.Perm.cons x (ih s))

/-- `randInsert` can place the new element at any position, with any
required leftover stream. -/
theorem randInsert_reach (x : α) :
    ∀ (b a : List α) (t : Nat → Bool),
      ∃ s, randInsert x s (b ++ a) = (b ++ x :: a, t) := by
  intro b
  induction b with
  | nil =>
    intro a t
    cases a with
    | nil => exact ⟨t, rfl⟩
    | cons y ys =>
      refine ⟨consS true t, ?_⟩
      show randInsert x (consS true t) (y :: ys) = (x :: y :: ys, t)
      rw [randInsert]
      have h0 : consS true t 0 = true := rfl
      rw [if_pos h0, shiftS_consS]
  | cons y b' ih =>
    intro a t
    obtain ⟨s', hs'⟩ := ih a t
    refine ⟨consS false s', ?_⟩
    show randInsert x (consS false s') (y :: (b' ++ a)) = _
    rw [randInsert]
    have h0 : consS false s' 0 = false := rfl
    rw [if_neg (by rw [h0]; exact Bool.false_ne_true), shiftS_consS, hs']
    rfl

/-- Every permutation of the input is reachable by the comparator-driven
shuffle, for a suitable stream of comparator signs — and the leftover
stream can be prescribed as well. -/
theorem randShuffle_reach :
    ∀ (l l' : List α), List.Perm l l' → ∀ t, ∃ s, randShuffle s l = (l', t) := by
  intro l
  induction l with
  | nil =>
    intro l' h t
    rw [(h.symm).eq_nil]
    exact ⟨t, rfl⟩
  | cons x xs ih =>
    intro l' h t
    have hx : x ∈ l' := h.subset (List.mem_cons_self x xs)
    obtain ⟨b, a, rfl⟩ := List.append_of_mem hx
    have hperm : List.Perm xs (b ++ a) :=
      List.Perm.cons_inv (h.trans List.perm_middle)
    obtain ⟨s₂, hs₂⟩ := randInsert_reach x b a t
    obtain ⟨s₁, hs₁⟩ := ih (b ++ a) hperm s₂
    refine ⟨s₁, ?_⟩
    rw [randShuffle, hs₁]
    exact hs₂

/-- When the primary lookup produces a result, `fetchMealsByRule` returns it
with only the primary call logged. -/
theorem fetchMealsByRule_primary_some (api : MealApi) (s : Nat → Bool)
    (rule : Rule) (r : List String)
    (hprim : (primaryLookup api rule).1 = some r) :
    fetchMealsByRule api s rule = (r, (primaryLookup api rule).2) := by
  rw [fetchMealsByRule, hprim]

/-- When the primary lookup produces nothing, `fetchMealsByRule` runs the
shuffled fallback cascade. -/
theorem fetchMealsByRule_primary_none (api : MealApi) (s : Nat → Bool)
    (rule : Rule) (hprim : (primaryLookup api rule).1 = none) :
    fetchMealsByRule api s rule =
      ((fallbackCascade api (randShuffle s DEFAULT_PAIRINGS).1).1,
       (primaryLookup api rule).2 ++
         (fallbackCascade api (randShuffle s DEFAULT_PAIRINGS).1).2) := by
  rw [fetchMealsByRule, hprim]

/-- When every rule in the list fails, the cascade returns the empty list. -/
theorem fallbackCascade_all_none (api : MealApi) (l : List Rule)
    (h : ∀ fb ∈ l, (fallbackOnce api fb).1 = none) :
    (fallbackCascade api l).1 = [] := by
  induction l with
  | nil => rfl
  | cons fb rest ih =>
    rw [fallbackCascade, h fb (List.mem_cons_self fb rest)]
    exact ih (fun x hx => h x (List.mem_cons_of_mem fb hx))

/-- The cascade stops at the first rule that yields a result and returns
that result. -/
theorem fallbackCascade_first_success (api : MealApi) (b : List Rule)
    (fb : Rule) (a : List Rule) (r : List String)
    (hb : ∀ x ∈ b, (fallbackOnce api x).1 = none)
    (hfb : (fallbackOnce api fb).1 = some r) :
    (fallbackCascade api (b ++ fb :: a)).1 = r := by
  induction b with
  | nil =>
    show (fallbackCascade api (fb :: a)).1 = r
    rw [fallbackCascade, hfb]
  | cons y b' ih =>
    show (fallbackCascade api (y :: (b' ++ fb :: a))).1 = r
    rw [fallbackCascade, hb y (List.mem_cons_self y b')]
    exact ih (fun x hx => hb x (List.mem_cons_of_mem y hx))

/-- C6: for an `'area'` or `'category'` rule whose lookup succeeds with at
least one meal, `fetchMealsByRule` returns exactly the first 6 results (all
of them when fewer than 6), in API order, with exactly the one primary call
logged — no fallback lookup — for every random stream; a lookup with 10
results yields exactly the first 6. -/
theorem fetchMealsByRule_primary_spec (api : MealApi) (s : Nat → Bool)
    (rule : Rule) (ms : List String)
    (hty : rule.type = "area" ∧ api "a" rule.value = .ok (some ms) ∨
           rule.type = "category" ∧ api "c" rule.value = .ok (some ms))
    (hne : ms ≠ []) :
    ∃ p, (rule.type = "area" ∧ p = "a" ∨ rule.type = "category" ∧ p = "c") ∧
      fetchMealsByRule api s rule = (ms.take 6, [(p, rule.value)]) ∧
      (6 ≤ ms.length → (fetchMealsByRule api s rule).1.length = 6) ∧
      (ms.length < 6 → (fetchMealsByRule api s rule).1 = ms) := by
  have hms : mealSlice (.ok (some ms)) = some (ms.take 6) := by
    rw [mealSlice]
    simp only [Option.getD_some]
    rw [if_neg (by simpa using hne)]
  have hmain : ∃ p, (rule.type = "area" ∧ p = "a" ∨
      rule.type = "category" ∧ p = "c") ∧
      primaryLookup api rule = (some (ms.take 6), [(p, rule.value)]) := by
    rcases hty with ⟨harea, hapi⟩ | ⟨hcat, hapi⟩
    · refine ⟨"a", Or.inl ⟨harea, rfl⟩, ?_⟩
      rw [primaryLookup, if_pos harea, hapi, hms]
    · refine ⟨"c", Or.inr ⟨hcat, rfl⟩, ?_⟩
      have hna : ¬ rule.type = "area" := by rw [hcat]; decide
      rw [primaryLookup, if_neg hna, if_pos hcat, hapi, hms]
  obtain ⟨p, hp, hprim⟩ := hmain
  have hfetch : fetchMealsByRule api s rule = (ms.take 6, [(p, rule.value)]) := by
    have h1 : (primaryLookup api rule).1 = some (ms.take 6) := by rw [hprim]
    rw [fetchMealsByRule_primary_some api s rule _ h1, hprim]
  refine ⟨p, hp, hfetch, ?_, ?_⟩
  · intro h6
    rw [hfetch]
    simp [List.length_take, Nat.min_eq_left h6]
  · intro h6
    rw [hfetch]
    simp [List.take_of_length_le (Nat.le_of_lt h6)]

/-- C7: `fetchMealsByRule` is a total function — a thrown lookup is
modelled by `ApiResult.throw` and absorbed by `mealSlice`, never
propagated — and when every lookup throws or yields no meals (primary and
all fallbacks alike) it returns the empty list, for every rule and random
stream. -/
theorem fetchMealsByRule_degrades (api : MealApi) (s : Nat → Bool)
    (rule : Rule) (hfail : ∀ p v, mealSlice (api p v) = none) :
    (fetchMealsByRule api s rule).1 = [] := by
  have hprim : (primaryLookup api rule).1 = none := by
    rw [primaryLookup]
    by_cases h1 : rule.type = "area"
    · rw [if_pos h1]
      exact hfail "a" rule.value
    · rw [if_neg h1]
      by_cases h2 : rule.type = "category"
      · rw [if_pos h2]
        exact hfail "c" rule.value
      · rw [if_neg h2]
  rw [fetchMealsByRule_primary_none api s rule hprim]
  exact fallbackCascade_all_none api _ (fun fb _ => by
    rw [fallbackOnce]
    by_cases h : fb.type = "area"
    · rw [if_pos h]
      exact hfail "a" fb.value
    · rw [if_neg h]
      exact hfail "c" fb.value)

/-- C8: when the primary lookup fails or yields nothing, `fetchMealsByRule`
runs the fallback cascade over a comparator-shuffled copy of
`DEFAULT_PAIRINGS`: the shuffled list is always a permutation of
`DEFAULT_PAIRINGS` and every permutation is reachable for some stream of
comparator draws; the cascade tries the rules sequentially in shuffled
order, stops at the first rule yielding at least one meal, and returns that
rule's first up-to-6 meals. -/
theorem fetchMealsByRule_fallback_spec :
    (∀ (s : Nat → Bool),
        List.Perm (randShuffle s DEFAULT_PAIRINGS).1 DEFAULT_PAIRINGS) ∧
    (∀ l', List.Perm DEFAULT_PAIRINGS l' →
        ∃ s : Nat → Bool, (randShuffle s DEFAULT_PAIRINGS).1 = l') ∧
    (∀ (api : MealApi) (s : Nat → Bool) (rule : Rule),
        (primaryLookup api rule).1 = none →
        (fetchMealsByRule api s rule).1 =
          (fallbackCascade api (randShuffle s DEFAULT_PAIRINGS).1).1) ∧
    (∀ (api : MealApi) (b : List Rule) (fb : Rule) (a : List Rule)
        (r : List String),
        (∀ x ∈ b, (fallbackOnce api x).1 = none) →
        (fallbackOnce api fb).1 = some r →
        (fallbackCascade api (b ++ fb :: a)).1 = r) ∧
    (∀ (api : MealApi) (fb : Rule) (ms : List String),
        (fb.type = "area" → api "a" fb.value = .ok (some ms)) →
        (fb.type ≠ "area" → api "c" fb.value = .ok (some ms)) →
        ms ≠ [] → (fallbackOnce api fb).1 = some (ms.take 6)) := by
  have hms : ∀ ms : List String, ms ≠ [] →
      mealSlice (.ok (some ms)) = some (ms.take 6) := by
    intro ms hne
    rw [mealSlice]
    simp only [Option.getD_some]
    rw [if_neg (by simpa using hne)]
  refine ⟨fun s => randShuffle_fst_perm s DEFAULT_PAIRINGS,
    fun l' h => ?_, fun api s rule hprim => ?_,
    fallbackCascade_first_success, fun api fb ms ha hc hne => ?_⟩
  · obtain ⟨s, hs⟩ := randShuffle_reach DEFAULT_PAIRINGS l' h (fun _ => false)
    exact ⟨s, by rw [hs]⟩
  · rw [fetchMealsByRule_primary_none api s rule hprim]
  · rw [fallbackOnce]
    by_cases h : fb.type = "area"
    · rw [if_pos h, ha h, hms ms hne]
    · rw [if_neg h, hc h, hms ms hne]

/-- C10: for a rule whose `type` is neither `'area'` nor `'category'`, the
primary lookup is skipped entirely (no call is made) and `fetchMealsByRule`
is exactly the shuffled fallback cascade, result and call log alike — the
ill-typed rule behaves like a failed primary lookup, and the function stays
total. -/
theorem fetchMealsByRule_other_type (api : MealApi) (s : Nat → Bool)
    (rule : Rule) (h1 : rule.type ≠ "area") (h2 : rule.type ≠ "category") :
    primaryLookup api rule = (none, []) ∧
    fetchMealsByRule api s rule =
      fallbackCascade api (randShuffle s DEFAULT_PAIRINGS).1 := by
  have hprim : primaryLookup api rule = (none, []) := by
    rw [primaryLookup, if_neg h1, if_neg h2]
  refine ⟨hprim, ?_⟩
  rw [fetchMealsByRule_primary_none api s rule (by rw [hprim]), hprim]
  rfl

/-- C9: a `POST /search` whose name and ingredient fields are both absent or
whitespace-only redirects to `/` without any upstream API call (and in
particular renders no error page). -/
theorem searchPost_missing_input (api : String → String → DrinksResult)
    (name ingredient : Option String)
    (hn : ∀ s, name = some s → jsTrim s = "")
    (hi : ∀ s, ingredient = some s → jsTrim s = "") :
    searchPost api name ingredient = (.redirect "/", []) := by
  have hnf : truthyTrim name = false := by
    cases name with
    | none => rfl
    | some s =>
      rw [truthyTrim]
      simp [hn s rfl]
  have hif : truthyTrim ingredient = false := by
    cases ingredient with
    | none => rfl
    | some s =>
      rw [truthyTrim]
      simp [hi s rfl]
  rw [searchPost]
  simp [hnf, hif]

/-! ### Concrete witnesses instantiating the claim theorems -/

/-- A sample raw drink record: slots 1, 2 and 4 are populated, slot 3 has an
empty name but a populated measure, slot 5 is `null`. -/
def exampleDrink : RawDrink :=
  [("strDrink", some "Margarita"),
   ("strIngredient1", some "Tequila"), ("strMeasure1", some "1 1/2 oz"),
   ("strIngredient2", some "Triple sec"),
   ("strIngredient3", some ""), ("strMeasure3", some "1 oz"),
   ("strIngredient4", some "Lime juice"), ("strMeasure4", none),
   ("strIngredient5", none)]

/-- A meal API answering ten meals on parameter `a` and nothing otherwise. -/
def apiTen : MealApi :=
  fun p _ => if p = "a" then
    .ok (some ["m1","m2","m3","m4","m5","m6","m7","m8","m9","m10"])
  else .ok none

/-- A meal API that only succeeds for value `Thai`, with one meal. -/
def apiThai : MealApi :=
  fun _ v => if v = "Thai" then .ok (some ["t1"]) else .throw

/-- Witness for the matched-group selection theorem at the margarita
ingredient list with a zero random draw. -/
theorem pickPairingRule_matched_group_witness :
    ((0 : ℚ) ≤ 0 ∧ (0 : ℚ) < 1) ∧
    (∃ g ∈ PAIRING_CANDIDATES, ∃ k ∈ g.keys,
        k ∈ extractPairingKeys [⟨"Tequila",""⟩, ⟨"Triple sec",""⟩, ⟨"Lime juice",""⟩]) ∧
    (∃ g pre post,
      PAIRING_CANDIDATES = pre ++ g :: post ∧
      (∀ g' ∈ pre, ¬ groupMatches (extractPairingKeys
        [⟨"Tequila",""⟩, ⟨"Triple sec",""⟩, ⟨"Lime juice",""⟩]) g') ∧
      groupMatches (extractPairingKeys
        [⟨"Tequila",""⟩, ⟨"Triple sec",""⟩, ⟨"Lime juice",""⟩]) g ∧
      pickPairingRule 0 [⟨"Tequila",""⟩, ⟨"Triple sec",""⟩, ⟨"Lime juice",""⟩] =
        pickOne 0 g.options ∧
      ∃ rule, pickPairingRule 0
          [⟨"Tequila",""⟩, ⟨"Triple sec",""⟩, ⟨"Lime juice",""⟩] = some rule ∧
        rule ∈ g.options) :=
  ⟨⟨le_refl 0, by norm_num⟩, by decide,
    pickPairingRule_matched_group
      [⟨"Tequila",""⟩, ⟨"Triple sec",""⟩, ⟨"Lime juice",""⟩] 0
      (le_refl 0) (by norm_num) (by decide)⟩

/-- Witness for the default selection theorem at an all-filler ingredient
list with a random draw of one half. -/
theorem pickPairingRule_default_witness :
    ((0 : ℚ) ≤ 1/2 ∧ (1/2 : ℚ) < 1) ∧
    (∀ g ∈ PAIRING_CANDIDATES, ∀ k ∈ g.keys,
        k ∉ extractPairingKeys [⟨"Ice",""⟩, ⟨"Soda water",""⟩]) ∧
    (pickPairingRule (1/2) [⟨"Ice",""⟩, ⟨"Soda water",""⟩] =
        pickOne (1/2) DEFAULT_PAIRINGS ∧
      ∃ rule, pickPairingRule (1/2) [⟨"Ice",""⟩, ⟨"Soda water",""⟩] = some rule ∧
        rule ∈ DEFAULT_PAIRINGS) :=
  ⟨⟨by norm_num, by norm_num⟩, by decide,
    pickPairingRule_default [⟨"Ice",""⟩, ⟨"Soda water",""⟩] (1/2)
      (by norm_num) (by norm_num) (by decide)⟩

/-- Witness for the totality theorem: a unique rule on the empty ingredient
list, an in-bounds index on the default pool, and case-insensitivity at a
capitalised gin. -/
theorem pickPairingRule_total_witness :
    (∃! rule, pickPairingRule 0 [] = some rule) ∧
    Int.toNat ⌊(0 : ℚ) * (DEFAULT_PAIRINGS.length : ℚ)⌋ < DEFAULT_PAIRINGS.length ∧
    pickPairingRule 0 [⟨"GIN",""⟩] = pickPairingRule 0 [⟨"gin",""⟩] :=
  ⟨pickPairingRule_total.1 [] 0 (le_refl 0) (by norm_num),
   pickPairingRule_total.2.2.2.1 DEFAULT_PAIRINGS 0 (le_refl 0) (by norm_num)
     (by decide),
   pickPairingRule_total.2.2.2.2.1 [⟨"GIN",""⟩] [⟨"gin",""⟩]
     (List.Forall₂.cons (by decide) List.Forall₂.nil) 0⟩

/-- Witness for the normaliser theorem: the sample drink has exactly 3
populated slots and its ingredient list has exactly 3 entries. -/
theorem collectIngredients_spec_witness :
    ((List.range' 1 15).filter (slotPopulated exampleDrink)).length = 3 ∧
    (collectIngredients exampleDrink).length = 3 :=
  ⟨by decide, (collectIngredients_spec exampleDrink).2.2.1 (by decide)⟩

/-- Witness for the frame theorem: on the sample drink the `strDrink` field
is preserved and the `ingredients` field holds the collected list. -/
theorem normalizeDrinkDetails_frame_witness :
    ("strDrink" : String) ≠ "ingredients" ∧
    ((normalizeDrinkDetails exampleDrink).lookup "strDrink" =
        (exampleDrink.lookup "strDrink").map FieldVal.prim ∧
      (normalizeDrinkDetails exampleDrink).lookup "ingredients" =
        some (.ings (collectIngredients exampleDrink))) :=
  ⟨by decide, normalizeDrinkDetails_frame exampleDrink "strDrink" (by decide)⟩

/-- Witness for the primary-lookup theorem: an area rule over a ten-meal
API answer yields the first six meals and a single logged call. -/
theorem fetchMealsByRule_primary_spec_witness :
    ((⟨"area","Mexican"⟩ : Rule).type = "area" ∧
      apiTen "a" "Mexican" =
        .ok (some ["m1","m2","m3","m4","m5","m6","m7","m8","m9","m10"])) ∧
    (["m1","m2","m3","m4","m5","m6","m7","m8","m9","m10"] : List String) ≠ [] ∧
    (∃ p, ((⟨"area","Mexican"⟩ : Rule).type = "area" ∧ p = "a" ∨
        (⟨"area","Mexican"⟩ : Rule).type = "category" ∧ p = "c") ∧
      fetchMealsByRule apiTen (fun _ => false) ⟨"area","Mexican"⟩ =
        (["m1","m2","m3","m4","m5","m6","m7","m8","m9","m10"].take 6,
         [(p, "Mexican")]) ∧
      (6 ≤ (["m1","m2","m3","m4","m5","m6","m7","m8","m9","m10"] : List String).length →
        (fetchMealsByRule apiTen (fun _ => false) ⟨"area","Mexican"⟩).1.length = 6) ∧
      ((["m1","m2","m3","m4","m5","m6","m7","m8","m9","m10"] : List String).length < 6 →
        (fetchMealsByRule apiTen (fun _ => false) ⟨"area","Mexican"⟩).1 =
          ["m1","m2","m3","m4","m5","m6","m7","m8","m9","m10"])) :=
  ⟨⟨rfl, rfl⟩, by decide,
    fetchMealsByRule_primary_spec apiTen (fun _ => false) ⟨"area","Mexican"⟩
      ["m1","m2","m3","m4","m5","m6","m7","m8","m9","m10"]
      (Or.inl ⟨rfl, rfl⟩) (by decide)⟩

/-- Witness for the degradation theorem: an always-throwing API yields the
empty list. -/
theorem fetchMealsByRule_degrades_witness :
    (∀ p v, mealSlice ((fun _ _ => ApiResult.throw : MealApi) p v) = none) ∧
    (fetchMealsByRule (fun _ _ => ApiResult.throw) (fun _ => false)
        ⟨"area","Mexican"⟩).1 = [] :=
  ⟨fun _ _ => rfl,
    fetchMealsByRule_degrades (fun _ _ => ApiResult.throw) (fun _ => false)
      ⟨"area","Mexican"⟩ (fun _ _ => rfl)⟩

/-- Witness for the fallback theorem: the reversed default list is a
reachable shuffle, and a cascade whose first rule fails stops at the second
rule and returns its meal. -/
theorem fetchMealsByRule_fallback_spec_witness :
    (∃ s : Nat → Bool,
        (randShuffle s DEFAULT_PAIRINGS).1 = DEFAULT_PAIRINGS.reverse) ∧
    (∀ x ∈ ([⟨"area","Italian"⟩] : List Rule), (fallbackOnce apiThai x).1 = none) ∧
    (fallbackOnce apiThai ⟨"area","Thai"⟩).1 = some ["t1"] ∧
    (fallbackCascade apiThai
        ([⟨"area","Italian"⟩] ++ ⟨"area","Thai"⟩ :: [⟨"area","Indian"⟩])).1 = ["t1"] :=
  ⟨fetchMealsByRule_fallback_spec.2.1 DEFAULT_PAIRINGS.reverse
      (List.reverse_perm DEFAULT_PAIRINGS).symm,
   by decide, by decide,
   fetchMealsByRule_fallback_spec.2.2.2.1 apiThai [⟨"area","Italian"⟩]
     ⟨"area","Thai"⟩ [⟨"area","Indian"⟩] ["t1"] (by decide) (by decide)⟩

/-- Witness for the ill-typed-rule theorem at an `'ingredient'` rule. -/
theorem fetchMealsByRule_other_type_witness :
    ((⟨"ingredient","Lime"⟩ : Rule).type ≠ "area" ∧
      (⟨"ingredient","Lime"⟩ : Rule).type ≠ "category") ∧
    (primaryLookup apiThai ⟨"ingredient","Lime"⟩ = (none, []) ∧
      fetchMealsByRule apiThai (fun _ => false) ⟨"ingredient","Lime"⟩ =
        fallbackCascade apiThai
          (randShuffle (fun _ => false) DEFAULT_PAIRINGS).1) :=
  ⟨⟨by decide, by decide⟩,
    fetchMealsByRule_other_type apiThai (fun _ => false) ⟨"ingredient","Lime"⟩
      (by decide) (by decide)⟩

/-- Witness for the search-route theorem: a whitespace-only name and an
absent ingredient redirect home with no API call. -/
theorem searchPost_missing_input_witness :
    (∀ s, (some "   " : Option String) = some s → jsTrim s = "") ∧
    (∀ s, (none : Option String) = some s → jsTrim s = "") ∧
    searchPost (fun _ _ => DrinksResult.throw) (some "   ") none =
      (.redirect "/", []) :=
  ⟨fun s hs => by injection hs with h; rw [← h]; decide,
   fun s hs => Option.noConfusion hs,
   searchPost_missing_input (fun _ _ => DrinksResult.throw) (some "   ") none
     (fun s hs => by injection hs with h; rw [← h]; decide)
     (fun s hs => Option.noConfusion hs)⟩

end CocktailApp
